import Mathlib

/-!
Verification development for the SD2OPP core of CalcOPP (`sd2opp.py`):
the binary PGRID codec (`read_grid` / `write_grid`), the title truncation
helper (`mbyte_truncate`), the density-to-OPP transform inside `calc_opp`,
and the Boltzmann constant `K_B`.

Conventions of the embedding:
* A file is a `List Nat` of bytes (each expected `< 256`).
* An `int32` or `float32` field of the format is a 4-byte little-endian
  word; since `write_grid`/`read_grid` never interpret the float bits
  (they are copied verbatim between memory and file), a `float32` value
  is represented by its 32-bit pattern (a `Nat < 2 ^ 32`).
* Failure paths of the Python code (`sys.exit`, index errors on truncated
  reads) are modelled by `Option`.
* The element-wise OPP formula is modelled over the exact reals extended
  with the IEEE special values (`F.pinf`, `F.ninf`, `F.nan`), which is
  what determines finiteness of each entry for the inputs the claims use.
* Double-precision rounding (needed only for the bit-for-bit claim about
  `K_B`) is modelled exactly on integer fractions via round-to-nearest,
  ties-to-even.
-/

namespace CalcOpp

/-- Little-endian serialization of one 4-byte word (`int32` scalar or
`float32` bit pattern), as produced by `numpy.ndarray.tofile` /
`file.write` on a little-endian platform.  Wraps modulo `2 ^ 32` exactly
like the `np.int32` cast in `write_grid`. -/
def i32 (n : Nat) : List Nat :=
  [n % 256, n / 256 % 256, n / 65536 % 256, n / 16777216 % 256]

/-- Serialization of a list of 4-byte words (an `int32`/`float32` array). -/
def words : List Nat → List Nat
  | [] => []
  | x :: l => i32 x ++ words l

/-- The header dictionary built by `read_grid` and consumed by
`write_grid`.  Integer fields hold 32-bit patterns; `title` holds the
UTF-8 bytes of the title; `cell` holds six `float32` bit patterns;
`symop` holds `npos` rows of twelve words.  The fields that Python sets
to `None` for raw (`ftype = 0`) files are represented by `0` / `[]`. -/
structure GridHeader where
  version : List Nat
  title : List Nat
  gtype : Nat
  ftype : Nat
  nval : Nat
  ndim : Nat
  ngrid : List Nat
  nasym : Nat
  cell : List Nat
  npos : Nat
  ncen : Nat
  nsub : Nat
  symop : List (List Nat)
  subposp : List Nat
  deriving Repr, DecidableEq

/-- Well-formedness of a header, from the data model of the format: the
fixed array shapes of the binary layout, byte/word ranges, a title of at
most 79 UTF-8 bytes, three-dimensional cells, and a symmetry block whose
operator table matches `npos`. -/
def wfHeader (h : GridHeader) : Prop :=
  h.version.length = 4 ∧ (∀ x ∈ h.version, x < 2 ^ 32) ∧
  h.title.length ≤ 79 ∧ (∀ b ∈ h.title, b < 256) ∧
  h.gtype < 2 ^ 32 ∧ h.ftype < 2 ^ 32 ∧
  h.ndim = 3 ∧
  h.ngrid.length = 3 ∧ (∀ x ∈ h.ngrid, x < 2 ^ 32) ∧
  h.cell.length = 6 ∧ (∀ x ∈ h.cell, x < 2 ^ 32) ∧
  h.npos < 2 ^ 32 ∧ h.ncen < 2 ^ 32 ∧ h.nsub < 2 ^ 32 ∧
  h.symop.length = h.npos ∧ (∀ row ∈ h.symop, row.length = 12 ∧ ∀ x ∈ row, x < 2 ^ 32) ∧
  h.subposp.length = 3 ∧ (∀ x ∈ h.subposp, x < 2 ^ 32)

instance (h : GridHeader) : Decidable (wfHeader h) := by
  unfold wfHeader; infer_instance

/-- Flatten the symmetry-operator table for serialization (the rows are
stored consecutively in the file). -/
def symopFlat : List (List Nat) → List Nat
  | [] => []
  | row :: rest => row ++ symopFlat rest

/-- The index/value record stream written for an indexed file:
`np.fromiter(zip(indices, data), ...)` — note that `zip` silently stops
at the shorter of the two lists. -/
def zipRecords : List Nat → List Nat → List Nat
  | i :: is, d :: ds => i32 i ++ i32 d ++ zipRecords is ds
  | _, _ => []

/-- Model of `write_grid(file, header, indices, data)`: the byte stream
written to the output file.  Mirrors the source line by line: `nval` is
overwritten with `1`, `nasym` with `data.size`; the title bytes are
padded with zero bytes to the 80-byte slot (`ljust` pads only when the
title is shorter than 80 bytes); the symmetry block and the
index/value records are written only for `ftype = 1`, a raw file gets
the flat value array. -/
def write_grid (h : GridHeader) (indices data : List Nat) : List Nat :=
  words h.version ++
  (h.title ++ List.replicate (80 - h.title.length) 0) ++
  i32 h.gtype ++ i32 h.ftype ++ i32 1 ++ i32 h.ndim ++
  words h.ngrid ++ i32 data.length ++ words h.cell ++
  (if h.ftype = 1 then
    i32 h.npos ++ i32 h.ncen ++ i32 h.nsub ++ words (symopFlat h.symop) ++
      words h.subposp ++ zipRecords indices data
  else
    words data)

/-- Deserialize one 4-byte little-endian word; `none` models the crash
of `np.fromfile(...)[0]` on a truncated file. -/
def word4 : List Nat → Option (Nat × List Nat)
  | b0 :: b1 :: b2 :: b3 :: r => some (b0 + 256 * b1 + 65536 * b2 + 16777216 * b3, r)
  | _ => none

/-- Deserialize `k` consecutive words. -/
def wordsN : Nat → List Nat → Option (List Nat × List Nat)
  | 0, b => some ([], b)
  | k + 1, b =>
    match word4 b with
    | none => none
    | some (w, r) =>
      match wordsN k r with
      | none => none
      | some (ws, r2) => some (w :: ws, r2)

/-- Deserialize all complete words of the remaining stream, dropping a
trailing incomplete word, like `np.fromfile(f, dtype=np.float32)`. -/
def chunkWords : List Nat → List Nat
  | b0 :: b1 :: b2 :: b3 :: r =>
    (b0 + 256 * b1 + 65536 * b2 + 16777216 * b3) :: chunkWords r
  | _ => []

/-- Deserialize all complete 8-byte index/value records of the remaining
stream, like `np.fromfile(f, dtype=[('index','i4'), ('value','f4')])`. -/
def chunkPairs : List Nat → List (Nat × Nat)
  | b0 :: b1 :: b2 :: b3 :: c0 :: c1 :: c2 :: c3 :: r =>
    (b0 + 256 * b1 + 65536 * b2 + 16777216 * b3,
      c0 + 256 * c1 + 65536 * c2 + 16777216 * c3) :: chunkPairs r
  | _ => []

/-- Regroup the flat symmetry-operator words into rows of twelve. -/
def chunk12 : List Nat → List (List Nat)
  | a :: b :: c :: d :: e :: f :: g :: h2 :: i :: j :: k :: l :: r =>
    [a, b, c, d, e, f, g, h2, i, j, k, l] :: chunk12 r
  | _ => []

/-- Title bytes extracted from the 80-byte slot:
`title_raw[:title_raw.find(b'\x00')]` — everything before the first zero
byte, and (a Python quirk) everything but the last byte when no zero
byte occurs (`find` returns `-1`). -/
def titleOf (t : List Nat) : List Nat :=
  if 0 ∈ t then t.takeWhile (fun b => b ≠ 0) else t.dropLast

/-- Model of `read_grid(file)`: parses the header in field order with the
fatal checks of the source (`ftype ∉ {0,1}`, `nval ∉ {1,2}` and
`ndim ≠ 3` call `sys.exit`, modelled as `none`), then the record stream.
The version and record-count checks of the source only print warnings
and do not influence the result, so they do not appear.  The dual-value
branch (`nval = 2`) combines two `float32` values with floating-point
addition, which this bit-pattern embedding does not interpret; it is
modelled as a parse failure and is unreachable for files produced by
`write_grid`, which always writes `nval = 1`.  The returned triple is
(header, indices, data); a raw file returns `[]` for the indices (Python
returns `None`). -/
def read_grid (b : List Nat) : Option (GridHeader × List Nat × List Nat) :=
  match wordsN 4 b with
  | none => none
  | some (ver, b) =>
    if 80 ≤ b.length then
      match word4 (b.drop 80) with
      | none => none
      | some (gtype, b2) =>
        match word4 b2 with
        | none => none
        | some (ftype, b3) =>
          if ftype = 0 ∨ ftype = 1 then
            match word4 b3 with
            | none => none
            | some (nval, b4) =>
              if nval = 1 ∨ nval = 2 then
                match word4 b4 with
                | none => none
                | some (ndim, b5) =>
                  if ndim = 3 then
                    match wordsN 3 b5 with
                    | none => none
                    | some (ngrid, b6) =>
                      match word4 b6 with
                      | none => none
                      | some (nasym, b7) =>
                        match wordsN 6 b7 with
                        | none => none
                        | some (cell, b8) =>
                          if ftype = 1 then
                            match word4 b8 with
                            | none => none
                            | some (npos, b9) =>
                              match word4 b9 with
                              | none => none
                              | some (ncen, b10) =>
                                match word4 b10 with
                                | none => none
                                | some (nsub, b11) =>
                                  match wordsN (12 * npos) b11 with
                                  | none => none
                                  | some (symflat, b12) =>
                                    match wordsN 3 b12 with
                                    | none => none
                                    | some (subposp, b13) =>
                                      if nval = 1 then
                                        some (⟨ver, titleOf (b.take 80), gtype, ftype,
                                          nval, ndim, ngrid, nasym, cell, npos, ncen,
                                          nsub, chunk12 symflat, subposp⟩,
                                          (chunkPairs b13).map Prod.fst,
                                          (chunkPairs b13).map Prod.snd)
                                      else none
                          else
                            if nval = 1 then
                              some (⟨ver, titleOf (b.take 80), gtype, ftype, nval,
                                ndim, ngrid, nasym, cell, 0, 0, 0, [], []⟩,
                                [], chunkWords b8)
                            else none
                  else none
              else none
          else none
    else none

/-- Encoding of a Unicode scalar value as UTF-8 bytes, as performed by
Python's `str.encode('utf-8')` character by character. -/
def utf8EncodeChar (c : Nat) : List Nat :=
  if c < 128 then [c]
  else if c < 2048 then [192 + c / 64, 128 + c % 64]
  else if c < 65536 then [224 + c / 4096, 128 + c / 64 % 64, 128 + c % 64]
  else [240 + c / 262144, 128 + c / 4096 % 64, 128 + c / 64 % 64, 128 + c % 64]

/-- UTF-8 encoding of a string, the string being represented as its list
of Unicode scalar values. -/
def utf8Encode : List Nat → List Nat
  | [] => []
  | c :: s => utf8EncodeChar c ++ utf8Encode s

/-- A Unicode scalar value: a code point outside the surrogate range
(Python's `str.encode('utf-8')` rejects surrogates). -/
def ScalarValue (c : Nat) : Prop :=
  c < 55296 ∨ (57344 ≤ c ∧ c < 1114112)

instance (c : Nat) : Decidable (ScalarValue c) := by
  unfold ScalarValue; infer_instance

/-- Model of Python's `bytes.decode('utf-8', 'ignore')`: parse UTF-8
strictly (continuation ranges restricted per lead byte, so that overlong
forms, surrogates and values above U+10FFFF are rejected) and drop the
maximal invalid subpart on error, resuming at the first byte that does
not belong to it — CPython's behavior for the `ignore` error handler.
A truncated sequence at the end of the input is dropped. -/
def utf8DecodeIgnore : List Nat → List Nat
  | [] => []
  | b :: r =>
    if b < 128 then b :: utf8DecodeIgnore r
    else if b < 194 then utf8DecodeIgnore r
    else if b < 224 then
      match hr : r with
      | [] => []
      | b1 :: r1 =>
        if 128 ≤ b1 ∧ b1 ≤ 191 then
          ((b - 192) * 64 + (b1 - 128)) :: utf8DecodeIgnore r1
        else utf8DecodeIgnore r
    else if b < 240 then
      match hr : r with
      | [] => []
      | b1 :: r1 =>
        if (if b = 224 then 160 ≤ b1 ∧ b1 ≤ 191
            else if b = 237 then 128 ≤ b1 ∧ b1 ≤ 159
            else 128 ≤ b1 ∧ b1 ≤ 191) then
          match hr1 : r1 with
          | [] => []
          | b2 :: r2 =>
            if 128 ≤ b2 ∧ b2 ≤ 191 then
              ((b - 224) * 4096 + (b1 - 128) * 64 + (b2 - 128)) :: utf8DecodeIgnore r2
            else utf8DecodeIgnore r1
        else utf8DecodeIgnore r
    else if b < 245 then
      match hr : r with
      | [] => []
      | b1 :: r1 =>
        if (if b = 240 then 144 ≤ b1 ∧ b1 ≤ 191
            else if b = 244 then 128 ≤ b1 ∧ b1 ≤ 143
            else 128 ≤ b1 ∧ b1 ≤ 191) then
          match hr1 : r1 with
          | [] => []
          | b2 :: r2 =>
            if 128 ≤ b2 ∧ b2 ≤ 191 then
              match hr2 : r2 with
              | [] => []
              | b3 :: r3 =>
                if 128 ≤ b3 ∧ b3 ≤ 191 then
                  ((b - 240) * 262144 + (b1 - 128) * 4096 + (b2 - 128) * 64 + (b3 - 128)) ::
                    utf8DecodeIgnore r3
                else utf8DecodeIgnore r2
            else utf8DecodeIgnore r1
        else utf8DecodeIgnore r
      else utf8DecodeIgnore r
termination_by l => l.length
decreasing_by all_goals (subst_vars; first
  | omega
  | (simp only [List.length_cons]; omega))

/-- Model of `mbyte_truncate(string, byte_length)` with UTF-8 encoding:
`string.encode('utf-8')[:byte_length].decode('utf-8', 'ignore')`. -/
def mbyte_truncate (s : List Nat) (byteLen : Nat) : List Nat :=
  utf8DecodeIgnore ((utf8Encode s).take byteLen)

/-- An IEEE-style extended value: a finite (exact real) value, the two
infinities, or NaN.  The rounding of finite intermediate results is
immaterial to the claims under proof, which only depend on the sign/zero
structure of the inputs, so finite values are kept exact. -/
inductive F where
  | fin : ℝ → F
  | pinf : F
  | ninf : F
  | nan : F

/-- Finiteness test, `np.isfinite`. -/
def F.isFin : F → Bool
  | .fin _ => true
  | _ => false

/-- Pairwise NaN-ignoring maximum, `np.fmax`: NaN loses against
everything, the infinities compare as usual.  `np.nanmax` is the
`np.fmax` reduction of the array. -/
noncomputable def fmax : F → F → F
  | .nan, b => b
  | a, .nan => a
  | .pinf, _ => .pinf
  | _, .pinf => .pinf
  | .ninf, b => b
  | a, .ninf => a
  | .fin x, .fin y => .fin (max x y)

/-- Model of `np.nanmax` on a (nonempty, in every use below) array:
the maximum ignoring NaNs, NaN when every entry is NaN.  Note that it
does **not** ignore infinities. -/
noncomputable def nanmax (l : List F) : F :=
  l.foldl fmax F.nan

/-- IEEE semantics of `np.log` on an extended value (`calc_opp` runs it
under `np.seterr(invalid='ignore')`, so negative arguments silently give
NaN and zero gives `-inf`). -/
noncomputable def flog (x : ℝ) : F :=
  if 0 < x then .fin (Real.log x) else if x = 0 then .ninf else .nan

/-- Multiplication of an extended value by a finite real constant. -/
noncomputable def smul (c : ℝ) : F → F
  | .fin x => .fin (c * x)
  | .pinf => if 0 < c then .pinf else if c < 0 then .ninf else .nan
  | .ninf => if 0 < c then .ninf else if c < 0 then .pinf else .nan
  | .nan => .nan

/-- The Boltzmann constant of `sd2opp.py` in eV/K, as the exact quotient
of the two CODATA 2018 decimal literals
(`K_B = 1.380649e-23 / 1.602176634e-19`). -/
noncomputable def K_B : ℝ :=
  1380649 / 10 ^ 29 / (1602176634 / 10 ^ 28)

/-- One element of `output_data = -K_B * temp * np.log(input_data/extr)`. -/
noncomputable def opp (temp extr v : ℝ) : F :=
  smul (-(K_B * temp)) (flog (v / extr))

/-- The transform stage of `calc_opp` (lines 364–368 of `sd2opp.py`):
compute the field element-wise, take `max_opp = np.nanmax(output_data)`,
and overwrite every non-finite entry with `max_opp`. -/
noncomputable def calc_opp_transform (temp extr : ℝ) (values : List ℝ) : List F :=
  let out := values.map (opp temp extr)
  let m := nanmax out
  out.map (fun x => if x.isFin then x else m)

/-- The extremum dispatch of `calc_opp` (lines 353–360 of `sd2opp.py`):
`'custom'` uses the caller-supplied value, `'min'` the minimum of the
input data, and **any** other string falls into the `else` branch, the
maximum of the input data.  `none` models the exception `numpy` raises
for `min`/`max` of an empty array (and a missing custom value). -/
noncomputable def select_extr (source : String) (extr : Option ℝ) (values : List ℝ) :
    Option ℝ :=
  if source = "custom" then extr
  else if source = "min" then values.min?
  else values.max?

/-- An unreduced fraction with positive denominator — the exact value of
a binary64 number or of a decimal literal.  A dedicated representation
(rather than `ℚ`) keeps every operation a plain `Int`/`Nat` computation
the kernel evaluates directly. -/
structure Q2 where
  num : ℤ
  den : ℕ
  deriving Repr, DecidableEq

/-- Value equality of fractions, by cross-multiplication. -/
def qeq (a b : Q2) : Prop :=
  a.num * (b.den : ℤ) = b.num * (a.den : ℤ)

instance (a b : Q2) : Decidable (qeq a b) := by
  unfold qeq; infer_instance

/-- Value comparison of fractions, by cross-multiplication (both
denominators positive in every use). -/
def qlt (a b : Q2) : Prop :=
  a.num * (b.den : ℤ) < b.num * (a.den : ℤ)

instance (a b : Q2) : Decidable (qlt a b) := by
  unfold qlt; infer_instance

/-- Fraction product. -/
def qmul (a b : Q2) : Q2 :=
  ⟨a.num * b.num, a.den * b.den⟩

/-- Fraction quotient (the divisor is nonzero in every use). -/
def qdiv (a b : Q2) : Q2 :=
  if b.num < 0 then ⟨-(a.num * (b.den : ℤ)), a.den * b.num.natAbs⟩
  else ⟨a.num * (b.den : ℤ), a.den * b.num.toNat⟩

/-- Fraction difference. -/
def qsub (a b : Q2) : Q2 :=
  ⟨a.num * (b.den : ℤ) - b.num * (a.den : ℤ), a.den * b.den⟩

/-- Absolute value of a fraction. -/
def qabs (a : Q2) : Q2 :=
  ⟨(a.num.natAbs : ℤ), a.den⟩

/-- An integer power of a natural base as a fraction. -/
def qpow (base : Nat) (e : ℤ) : Q2 :=
  if 0 ≤ e then ⟨((base ^ e.toNat : ℕ) : ℤ), 1⟩ else ⟨1, base ^ (-e).toNat⟩

/-- Floor of the base-2 logarithm of a positive natural number, with
explicit fuel (structural recursion keeps every definition reducible by
the kernel). -/
def nlog2 : Nat → Nat → Nat
  | 0, _ => 0
  | fuel + 1, n => if n ≤ 1 then 0 else nlog2 fuel (n / 2) + 1

/-- Floor of the base-2 logarithm of a positive fraction, valid for
magnitudes above `2 ^ (-120)`. -/
def floorLog2 (q : Q2) : ℤ :=
  (nlog2 2000 (q.num.toNat * 2 ^ 120 / q.den) : ℤ) - 120

/-- Binary exponent of a positive fraction: the unique `e` with
`2 ^ e ≤ q < 2 ^ (e + 1)` (with a self-correction step around the
computed floor logarithm). -/
def binExp (q : Q2) : ℤ :=
  let e := floorLog2 q
  if qlt q (qpow 2 e) then e - 1
  else if ¬ qlt q (qpow 2 (e + 1)) then e + 1
  else e

/-- Round a fraction to an integer, half to even (the IEEE default):
`fl` is the floor and `rem2` twice the remainder, compared against the
denominator to classify the fractional part against one half. -/
def rhe (r : Q2) : ℤ :=
  let fl := Int.fdiv r.num (r.den : ℤ)
  let rem2 := 2 * (r.num - fl * (r.den : ℤ))
  if rem2 < (r.den : ℤ) then fl
  else if (r.den : ℤ) < rem2 then fl + 1
  else if fl % 2 = 0 then fl else fl + 1

/-- Round a fraction to the nearest IEEE 754 binary64 value (ties to
even), as the exact fraction it denotes: the significand is the value
scaled into `[2 ^ 52, 2 ^ 53]` and rounded half-to-even.  Valid in the
normal range, which covers every constant appearing here. -/
def roundDouble (q : Q2) : Q2 :=
  if q.num = 0 then ⟨0, 1⟩
  else
    let s : ℤ := if q.num < 0 then -1 else 1
    let a : Q2 := ⟨(q.num.natAbs : ℤ), q.den⟩
    let e := binExp a
    let m := rhe (qmul a (qpow 2 (52 - e)))
    if 52 ≤ e then ⟨s * m * 2 ^ (e - 52).toNat, 1⟩ else ⟨s * m, 2 ^ (52 - e).toNat⟩

/-- The binary64 value of a decimal literal `m × 10 ^ e` (CPython parses
float literals with correct rounding). -/
def pyLit (m : ℤ) (e : ℤ) : Q2 :=
  roundDouble (qmul ⟨m, 1⟩ (qpow 10 e))

/-- The binary64 value of `K_B = 1.380649e-23 / 1.602176634e-19` as
evaluated by CPython: both literals are rounded to binary64, then the
quotient is rounded (IEEE division is correctly rounded). -/
def K_B_double : Q2 :=
  roundDouble (qdiv (pyLit 1380649 (-29)) (pyLit 1602176634 (-28)))

/-- The binary64 value of the literal `8.617333262e-5`. -/
def litKB_double : Q2 :=
  pyLit 8617333262 (-14)

/-- A string (list of Unicode scalar values) Python can UTF-8 encode. -/
def ValidString (s : List Nat) : Prop :=
  ∀ c ∈ s, ScalarValue c

instance (s : List Nat) : Decidable (ValidString s) := by
  unfold ValidString; infer_instance

/-- All entries of a word array fit in 32 bits. -/
def wordsLt (l : List Nat) : Prop :=
  ∀ x ∈ l, x < 2 ^ 32

instance (l : List Nat) : Decidable (wordsLt l) := by
  unfold wordsLt; infer_instance

/-- Every entry of an extended-value array is non-finite. -/
def allNonFin (l : List F) : Prop :=
  ∀ x ∈ l, x.isFin = false

/-- A concrete raw-mode header used to instantiate the theorems: note
that its `nval` (2) and `nasym` (999) fields are deliberately wrong, the
writer must overwrite both. -/
def hdrRaw : GridHeader :=
  ⟨[3, 0, 0, 0], [79, 80, 80], 1, 0, 2, 3, [2, 2, 2], 999,
    [1, 2, 3, 4, 5, 6], 0, 0, 0, [], [0, 0, 0]⟩

/-- A concrete indexed-mode header (empty symmetry-operator table) used
to instantiate the theorems. -/
def hdrIdx : GridHeader :=
  ⟨[3, 0, 0, 0], [79, 80, 80], 1, 1, 2, 3, [2, 2, 2], 999,
    [1, 2, 3, 4, 5, 6], 0, 1, 0, [], [0, 0, 0]⟩

set_option maxRecDepth 8000 in
/-- Claim C4 counterexample: the Boltzmann constant of the program,
`K_B = 1.380649e-23 / 1.602176634e-19` evaluated in binary64, is not
bit-for-bit the binary64 value of the literal `8.617333262e-5` (their
exact values differ, by about `1.45e-15`, i.e. by roughly `10 ^ 5`
units in the last place). -/
theorem c4_counterexample : ¬ qeq K_B_double litKB_double := by
  decide

set_option maxRecDepth 8000 in
/-- Claim C4 (amended): the Boltzmann constant used by the transform is
the binary64 quotient `1.380649e-23 / 1.602176634e-19` of the CODATA
2018 defining constants; it agrees with `8.617333262e-5` to ten
significant figures (it lies within `5e-15` of that decimal value) but
is not bit-for-bit equal to the binary64 value of that literal. -/
theorem c4_amended :
    qlt (qabs (qsub K_B_double ⟨8617333262, 10 ^ 14⟩)) ⟨5, 10 ^ 15⟩ ∧
      ¬ qeq K_B_double litKB_double := by
  constructor
  · decide
  · decide

/-- Claim C10: in the extremum dispatch of `calc_opp`, every policy
string other than `'custom'` and `'min'` — including `'max'` but also
any unrecognized string — falls into the `else` branch and yields the
maximum of the input values, without any error. -/
theorem c10_unknown_policy_is_max (source : String) (extr : Option ℝ) (values : List ℝ)
    (h1 : source ≠ "custom") (h2 : source ≠ "min") :
    select_extr source extr values = values.max? ∧
      select_extr source extr values = select_extr "max" extr values := by
  constructor
  · simp [select_extr, h1, h2]
  · simp [select_extr, h1, h2]

theorem K_B_pos : 0 < K_B := by
  unfold K_B
  positivity

theorem neg_K_B_mul_neg {temp : ℝ} (ht : 0 < temp) : -(K_B * temp) < 0 := by
  have := K_B_pos
  nlinarith

theorem opp_of_pos (temp extr v : ℝ) (h : 0 < v / extr) :
    opp temp extr v = F.fin (-(K_B * temp) * Real.log (v / extr)) := by
  simp [opp, flog, h, smul]

theorem opp_of_div_zero (temp extr v : ℝ) (ht : 0 < temp) (h : v / extr = 0) :
    opp temp extr v = F.pinf := by
  have hc := neg_K_B_mul_neg ht
  simp [opp, flog, h, smul, not_lt.2 hc.le, hc]

theorem opp_of_neg (temp extr v : ℝ) (h : v / extr < 0) :
    opp temp extr v = F.nan := by
  simp [opp, flog, not_lt.2 h.le, h.ne, smul]

theorem opp_self (temp extr : ℝ) (he : extr ≠ 0) :
    opp temp extr extr = F.fin 0 := by
  unfold opp
  rw [div_self he]
  simp [flog, smul]

theorem fmax_nonfin (a b : F) (ha : a.isFin = false) (hb : b.isFin = false) :
    (fmax a b).isFin = false := by
  cases a <;> cases b <;> simp_all [fmax, F.isFin]

theorem foldl_fmax_nonfin (l : List F) (hl : ∀ x ∈ l, x.isFin = false) :
    ∀ acc : F, acc.isFin = false → (l.foldl fmax acc).isFin = false := by
  induction l with
  | nil => intro acc hacc; simpa using hacc
  | cons x t ih =>
    intro acc hacc
    simp only [List.foldl_cons]
    exact ih (fun y hy => hl y (List.mem_cons_of_mem x hy))
      (fmax acc x) (fmax_nonfin acc x hacc (hl x (List.mem_cons_self x t)))

theorem nanmax_nonfin (l : List F) (hl : ∀ x ∈ l, x.isFin = false) :
    (nanmax l).isFin = false :=
  foldl_fmax_nonfin l hl F.nan rfl

/-- Claim C3: the transform computes `opp(v) = -K_B·temp·ln(v/extr)`
element-wise (stated for every regular point, i.e. positive ratio), and
for every positive temperature and nonzero extremum an input value equal
to the extremum comes out as exactly zero OPP, the clamping pass leaving
this finite entry untouched. -/
theorem c3_transform_at_extremum (temp extr : ℝ) (ht : 0 < temp) (he : extr ≠ 0) :
    (∀ v : ℝ, 0 < v / extr →
        opp temp extr v = F.fin (-(K_B * temp) * Real.log (v / extr))) ∧
      calc_opp_transform temp extr [extr] = [F.fin 0] := by
  refine ⟨fun v hv => opp_of_pos temp extr v hv, ?_⟩
  simp [calc_opp_transform, opp_self temp extr he, nanmax, fmax, F.isFin]

/-- Witness for C3 at temperature 300 K and extremum 5. -/
theorem c3_witness :
    0 < (300 : ℝ) ∧ (5 : ℝ) ≠ 0 ∧
      ((∀ v : ℝ, 0 < v / 5 →
          opp 300 5 v = F.fin (-(K_B * 300) * Real.log (v / 5))) ∧
        calc_opp_transform 300 5 [(5 : ℝ)] = [F.fin 0]) :=
  ⟨by norm_num, by norm_num, c3_transform_at_extremum 300 5 (by norm_num) (by norm_num)⟩

/-- Claim C1, evaluated at the failing input: for
`values = [extremum, 0, -extremum]` with extremum 5 and temperature
300, the computed field is `[0, +inf, NaN]`, `np.nanmax` returns `+inf`
(it ignores NaN but not infinities), and the clamping therefore yields
`[0, +inf, +inf]` — not `[0, 0, 0]` as the claim (replacement by the
maximum FINITE entry) requires.  The code contradicts its own output
label `Maximal finite OPP` here. -/
theorem c1_singularity_clamp_eval :
    calc_opp_transform 300 5 [5, 0, -5] = [F.fin 0, F.pinf, F.pinf] := by
  have h1 : opp 300 5 5 = F.fin 0 := opp_self 300 5 (by norm_num)
  have h2 : opp 300 5 0 = F.pinf := opp_of_div_zero 300 5 0 (by norm_num) (by norm_num)
  have h3 : opp (300 : ℝ) 5 (-5) = F.nan := opp_of_neg 300 5 (-5) (by norm_num)
  simp [calc_opp_transform, h1, h2, h3, nanmax, fmax, F.isFin]

/-- Claim C2 counterexample: on `values = [0, -5]` with extremum 5 and
temperature 300 — every ratio non-positive, hence every computed entry
non-finite — the transform does not fail at all (the code has no
`DegenerateField` error, nor any other error path): it returns the array
`[+inf, +inf]`. -/
theorem c2_counterexample :
    calc_opp_transform 300 5 [0, -5] = [F.pinf, F.pinf] := by
  have h2 : opp 300 5 0 = F.pinf := opp_of_div_zero 300 5 0 (by norm_num) (by norm_num)
  have h3 : opp (300 : ℝ) 5 (-5) = F.nan := opp_of_neg 300 5 (-5) (by norm_num)
  simp [calc_opp_transform, h2, h3, nanmax, fmax, F.isFin]

/-- Claim C2 (amended): when every entry of the computed OPP field is
non-finite, the transform does not raise an error; `np.nanmax` of the
field is itself non-finite (`+inf` if any entry is `+inf`, otherwise
NaN) and every entry is replaced by it, so the returned array is
constant and non-finite. -/
theorem c2_amended (temp extr : ℝ) (values : List ℝ)
    (hall : allNonFin (values.map (opp temp extr))) :
    (nanmax (values.map (opp temp extr))).isFin = false ∧
      calc_opp_transform temp extr values =
        values.map (fun _ => nanmax (values.map (opp temp extr))) := by
  constructor
  · exact nanmax_nonfin _ hall
  · unfold calc_opp_transform
    rw [List.map_map]
    refine List.map_congr_left ?_
    intro v hv
    have hx : (opp temp extr v).isFin = false :=
      hall _ (List.mem_map_of_mem (opp temp extr) hv)
    simp [Function.comp, hx]

/-- Witness for the amended C2 at `values = [0, -5]`, extremum 5,
temperature 300. -/
theorem c2_amended_witness :
    allNonFin (([0, -5] : List ℝ).map (opp 300 5)) ∧
      ((nanmax (([0, -5] : List ℝ).map (opp 300 5))).isFin = false ∧
        calc_opp_transform 300 5 [0, -5] =
          ([0, -5] : List ℝ).map (fun _ => nanmax (([0, -5] : List ℝ).map (opp 300 5)))) := by
  have h2 : opp 300 5 0 = F.pinf := opp_of_div_zero 300 5 0 (by norm_num) (by norm_num)
  have h3 : opp (300 : ℝ) 5 (-5) = F.nan := opp_of_neg 300 5 (-5) (by norm_num)
  have hall : allNonFin (([0, -5] : List ℝ).map (opp 300 5)) := by
    unfold allNonFin
    simp [h2, h3, F.isFin]
  exact ⟨hall, c2_amended 300 5 [0, -5] hall⟩

theorem utf8_decode_encChar (c : Nat) (r : List Nat) (hc : ScalarValue c) :
    utf8DecodeIgnore (utf8EncodeChar c ++ r) = c :: utf8DecodeIgnore r := by
  rcases Nat.lt_or_ge c 128 with h1 | h1
  · have e1 : utf8EncodeChar c = [c] := by
      unfold utf8EncodeChar; rw [if_pos h1]
    rw [e1]
    conv_lhs => rw [utf8DecodeIgnore.eq_def]
    simp [h1]
  · rcases Nat.lt_or_ge c 2048 with h2 | h2
    · have e1 : utf8EncodeChar c = [192 + c / 64, 128 + c % 64] := by
        unfold utf8EncodeChar; rw [if_neg (by omega), if_pos (by omega)]
      have f1 : ¬ (192 + c / 64 < 128) := by omega
      have f2 : ¬ (192 + c / 64 < 194) := by omega
      have f3 : 192 + c / 64 < 224 := by omega
      have f4 : 128 ≤ 128 + c % 64 ∧ 128 + c % 64 ≤ 191 := by omega
      have f5 : (192 + c / 64 - 192) * 64 + (128 + c % 64 - 128) = c := by omega
      rw [e1]
      conv_lhs => rw [utf8DecodeIgnore.eq_def]
      simp [f1, f2, f3, f4, f5]
      omega
    · rcases Nat.lt_or_ge c 65536 with h3 | h3
      · have e1 : utf8EncodeChar c = [224 + c / 4096, 128 + c / 64 % 64, 128 + c % 64] := by
          unfold utf8EncodeChar; rw [if_neg (by omega), if_neg (by omega), if_pos (by omega)]
        have f1 : ¬ (224 + c / 4096 < 128) := by omega
        have f2 : ¬ (224 + c / 4096 < 194) := by omega
        have f3 : ¬ (224 + c / 4096 < 224) := by omega
        have f4 : 224 + c / 4096 < 240 := by omega
        have f5 : 128 ≤ 128 + c % 64 ∧ 128 + c % 64 ≤ 191 := by omega
        rw [e1]
        conv_lhs => rw [utf8DecodeIgnore.eq_def]
        simp [f1, f2, f3, f4, f5]
        rw [if_pos (by rcases hc with h | h <;> split_ifs <;> omega)]
        simp only [List.cons.injEq]
        exact ⟨by omega, trivial⟩
      · have hup : c < 1114112 := by
          rcases hc with h | h
          · omega
          · omega
        have e1 : utf8EncodeChar c
            = [240 + c / 262144, 128 + c / 4096 % 64, 128 + c / 64 % 64, 128 + c % 64] := by
          unfold utf8EncodeChar; rw [if_neg (by omega), if_neg (by omega), if_neg (by omega)]
        have f1 : ¬ (240 + c / 262144 < 128) := by omega
        have f2 : ¬ (240 + c / 262144 < 194) := by omega
        have f3 : ¬ (240 + c / 262144 < 224) := by omega
        have f3b : ¬ (240 + c / 262144 < 240) := by omega
        have f4 : 240 + c / 262144 < 245 := by omega
        have f5 : 128 ≤ 128 + c / 64 % 64 ∧ 128 + c / 64 % 64 ≤ 191 := by omega
        have f6 : 128 ≤ 128 + c % 64 ∧ 128 + c % 64 ≤ 191 := by omega
        rw [e1]
        conv_lhs => rw [utf8DecodeIgnore.eq_def]
        simp [f1, f2, f3, f3b, f4, f5, f6]
        rw [if_pos (by rcases hc with h | h <;> split_ifs <;> omega)]
        simp only [List.cons.injEq]
        exact ⟨by omega, trivial⟩

theorem utf8_decode_partial (c n : Nat) (hc : ScalarValue c)
    (hn : n < (utf8EncodeChar c).length) :
    utf8DecodeIgnore ((utf8EncodeChar c).take n) = [] := by
  rcases Nat.lt_or_ge c 128 with h1 | h1
  · have e1 : utf8EncodeChar c = [c] := by
      unfold utf8EncodeChar; rw [if_pos h1]
    rw [e1] at hn ⊢
    simp only [List.length_cons, List.length_nil] at hn
    interval_cases n
    · simp [utf8DecodeIgnore]
  · rcases Nat.lt_or_ge c 2048 with h2 | h2
    · have e1 : utf8EncodeChar c = [192 + c / 64, 128 + c % 64] := by
        unfold utf8EncodeChar; rw [if_neg (by omega), if_pos (by omega)]
      have f1 : ¬ (192 + c / 64 < 128) := by omega
      have f2 : ¬ (192 + c / 64 < 194) := by omega
      have f3 : 192 + c / 64 < 224 := by omega
      rw [e1] at hn ⊢
      simp only [List.length_cons, List.length_nil] at hn
      interval_cases n
      · simp [utf8DecodeIgnore]
      · simp [utf8DecodeIgnore.eq_def, f1, f2, f3]
    · rcases Nat.lt_or_ge c 65536 with h3 | h3
      · have e1 : utf8EncodeChar c = [224 + c / 4096, 128 + c / 64 % 64, 128 + c % 64] := by
          unfold utf8EncodeChar; rw [if_neg (by omega), if_neg (by omega), if_pos (by omega)]
        have f1 : ¬ (224 + c / 4096 < 128) := by omega
        have f2 : ¬ (224 + c / 4096 < 194) := by omega
        have f3 : ¬ (224 + c / 4096 < 224) := by omega
        have f4 : 224 + c / 4096 < 240 := by omega
        have g1 : ¬ (128 + c / 64 % 64 < 128) := by omega
        have g2 : 128 + c / 64 % 64 < 194 := by omega
        rw [e1] at hn ⊢
        simp only [List.length_cons, List.length_nil] at hn
        interval_cases n
        · simp [utf8DecodeIgnore]
        · simp [utf8DecodeIgnore.eq_def, f1, f2, f3, f4]
        · simp [utf8DecodeIgnore.eq_def, f1, f2, f3, f4, g1, g2]
      · have hup : c < 1114112 := by
          rcases hc with h | h
          · omega
          · omega
        have e1 : utf8EncodeChar c
            = [240 + c / 262144, 128 + c / 4096 % 64, 128 + c / 64 % 64, 128 + c % 64] := by
          unfold utf8EncodeChar; rw [if_neg (by omega), if_neg (by omega), if_neg (by omega)]
        have f1 : ¬ (240 + c / 262144 < 128) := by omega
        have f2 : ¬ (240 + c / 262144 < 194) := by omega
        have f3 : ¬ (240 + c / 262144 < 224) := by omega
        have f3b : ¬ (240 + c / 262144 < 240) := by omega
        have f4 : 240 + c / 262144 < 245 := by omega
        have g1 : ¬ (128 + c / 4096 % 64 < 128) := by omega
        have g2 : 128 + c / 4096 % 64 < 194 := by omega
        have g3 : ¬ (128 + c / 64 % 64 < 128) := by omega
        have g4 : 128 + c / 64 % 64 < 194 := by omega
        rw [e1] at hn ⊢
        simp only [List.length_cons, List.length_nil] at hn
        interval_cases n
        · simp [utf8DecodeIgnore]
        · simp [utf8DecodeIgnore.eq_def, f1, f2, f3, f3b, f4]
        · simp [utf8DecodeIgnore.eq_def, f1, f2, f3, f3b, f4, g1, g2]
        · simp [utf8DecodeIgnore.eq_def, f1, f2, f3, f3b, f4, g1, g2, g3, g4]

theorem utf8Encode_cons (c : Nat) (t : List Nat) :
    utf8Encode (c :: t) = utf8EncodeChar c ++ utf8Encode t := rfl

theorem mbyte_truncate_spec (s : List Nat) (n : Nat) (hs : ValidString s) :
    ∃ k, utf8DecodeIgnore ((utf8Encode s).take n) = s.take k ∧
      (utf8Encode (s.take k)).length ≤ n ∧
      utf8Encode (s.take k) <+: utf8Encode s := by
  induction s generalizing n with
  | nil =>
    refine ⟨0, ?_, by simp [utf8Encode], by simp [utf8Encode]⟩
    simp [utf8Encode, utf8DecodeIgnore]
  | cons c t ih =>
    have hc : ScalarValue c := hs c (List.mem_cons_self c t)
    have hst : ValidString t := fun x hx => hs x (List.mem_cons_of_mem c hx)
    rcases Nat.lt_or_ge n (utf8EncodeChar c).length with hn | hn
    · refine ⟨0, ?_, by simp [utf8Encode], List.nil_prefix⟩
      have hcut : (utf8Encode (c :: t)).take n = (utf8EncodeChar c).take n := by
        rw [utf8Encode_cons, List.take_append_eq_append_take,
          Nat.sub_eq_zero_of_le (Nat.le_of_lt hn)]
        simp
      rw [hcut, utf8_decode_partial c n hc hn]
      simp
    · obtain ⟨k, hk1, hk2, hk3⟩ := ih (n - (utf8EncodeChar c).length) hst
      refine ⟨k + 1, ?_, ?_, ?_⟩
      · have hsplit : (utf8Encode (c :: t)).take n
            = utf8EncodeChar c ++ (utf8Encode t).take (n - (utf8EncodeChar c).length) := by
          rw [utf8Encode_cons, List.take_append_eq_append_take,
            List.take_of_length_le hn]
        rw [hsplit, utf8_decode_encChar c _ hc, hk1, List.take_succ_cons]
      · rw [List.take_succ_cons, utf8Encode_cons, List.length_append]
        omega
      · rw [List.take_succ_cons, utf8Encode_cons, utf8Encode_cons]
        obtain ⟨w, hw⟩ := hk3
        exact ⟨w, by rw [List.append_assoc, hw]⟩

/-- Claim C8: truncating a title whose UTF-8 encoding exceeds 79 bytes
with `mbyte_truncate(title, 79)` yields a string that is a prefix of the
original at whole-character granularity (`s.take k` — so no multi-byte
code point is ever split), whose UTF-8 encoding is at most 79 bytes and
is a byte-level prefix of the original encoding. -/
theorem c8_title_truncation (s : List Nat) (hs : ValidString s)
    (hlong : 79 < (utf8Encode s).length) :
    ∃ k, mbyte_truncate s 79 = s.take k ∧
      (utf8Encode (mbyte_truncate s 79)).length ≤ 79 ∧
      utf8Encode (mbyte_truncate s 79) <+: utf8Encode s := by
  obtain ⟨k, h1, h2, h3⟩ := mbyte_truncate_spec s 79 hs
  have hm : mbyte_truncate s 79 = s.take k := h1
  refine ⟨k, hm, ?_, ?_⟩
  · rw [hm]; exact h2
  · rw [hm]; exact h3

/-- Witness for C8 on a title of forty alpha characters (U+03B1, two
UTF-8 bytes each, 80 bytes in total). -/
theorem c8_witness :
    ValidString (List.replicate 40 945) ∧
      79 < (utf8Encode (List.replicate 40 945)).length ∧
      (∃ k, mbyte_truncate (List.replicate 40 945) 79 = (List.replicate 40 945).take k ∧
        (utf8Encode (mbyte_truncate (List.replicate 40 945) 79)).length ≤ 79 ∧
        utf8Encode (mbyte_truncate (List.replicate 40 945) 79) <+:
          utf8Encode (List.replicate 40 945)) := by
  refine ⟨by decide, by decide, c8_title_truncation _ (by decide) (by decide)⟩

/-- Witness for C10 at the misspelled policy string `'Max'`. -/
theorem c10_witness :
    ("Max" : String) ≠ "custom" ∧ ("Max" : String) ≠ "min" ∧
      (select_extr "Max" none [1, 2] = ([1, 2] : List ℝ).max? ∧
        select_extr "Max" none [1, 2] = select_extr "max" none [1, 2]) := by
  refine ⟨by decide, by decide, ?_⟩
  exact c10_unknown_policy_is_max "Max" none [1, 2] (by decide) (by decide)

theorem word4_i32 (n : Nat) (r : List Nat) (hn : n < 2 ^ 32) :
    word4 (i32 n ++ r) = some (n, r) := by
  simp [word4, i32]
  omega

theorem word4_i32_mod (n : Nat) (r : List Nat) :
    word4 (i32 n ++ r) = some (n % 2 ^ 32, r) := by
  simp [word4, i32]
  omega

theorem wordsN_of_words (k : Nat) (l r : List Nat) (hk : l.length = k) (hl : wordsLt l) :
    wordsN k (words l ++ r) = some (l, r) := by
  subst hk
  induction l with
  | nil => simp [words, wordsN]
  | cons x t ih =>
    have hx : x < 2 ^ 32 := hl x (List.mem_cons_self x t)
    have ht : wordsLt t := fun y hy => hl y (List.mem_cons_of_mem x hy)
    simp only [words, List.append_assoc, List.length_cons, wordsN,
      word4_i32 x _ hx, ih ht]

theorem chunkWords_words (l : List Nat) (hl : wordsLt l) :
    chunkWords (words l) = l := by
  induction l with
  | nil => simp [words, chunkWords]
  | cons x t ih =>
    have hx : x < 2 ^ 32 := hl x (List.mem_cons_self x t)
    have ht : wordsLt t := fun y hy => hl y (List.mem_cons_of_mem x hy)
    simp [words, i32, chunkWords, ih ht]
    omega

theorem words_length (l : List Nat) : (words l).length = 4 * l.length := by
  induction l with
  | nil => simp [words]
  | cons x t ih =>
    show (i32 x ++ words t).length = 4 * (x :: t).length
    rw [List.length_append, ih]
    simp [i32]
    omega

/-- Claim C5: writing a well-formed raw-mode (`ftype = 0`) header with
any value array of `float32` bit patterns and reading the file back
succeeds and returns the identical grid shape, identical cell
parameters, and the bit-identical values array. -/
theorem c5_raw_roundtrip (h : GridHeader) (indices data : List Nat)
    (hwf : wfHeader h) (hraw : h.ftype = 0) (hdata : wordsLt data) :
    ∃ h2, read_grid (write_grid h indices data) = some (h2, [], data) ∧
      h2.ngrid = h.ngrid ∧ h2.cell = h.cell := by
  obtain ⟨hv4, hvlt, ht79, htb, hg, hf, hndim, hng3, hnglt, hc6, hclt,
    hnp, hnc, hns, hsl, hsrow, hsp3, hsplt⟩ := hwf
  have e0 : write_grid h indices data =
      words h.version ++
        ((h.title ++ List.replicate (80 - h.title.length) 0) ++
          (i32 h.gtype ++ (i32 h.ftype ++ (i32 1 ++ (i32 h.ndim ++
            (words h.ngrid ++ (i32 data.length ++ (words h.cell ++ words data)))))))) := by
    rw [write_grid, if_neg (by simp [hraw])]
    simp [List.append_assoc]
  have hslot : (h.title ++ List.replicate (80 - h.title.length) 0).length = 80 := by
    simp [List.length_append, List.length_replicate]
    omega
  set R2 : List Nat := i32 h.gtype ++ (i32 h.ftype ++ (i32 1 ++ (i32 h.ndim ++
    (words h.ngrid ++ (i32 data.length ++ (words h.cell ++ words data)))))) with hR2
  set R1 : List Nat := (h.title ++ List.replicate (80 - h.title.length) 0) ++ R2 with hR1
  have hw1 : wordsN 4 (words h.version ++ R1) = some (h.version, R1) :=
    wordsN_of_words 4 h.version R1 hv4 hvlt
  have hlen1 : 80 ≤ R1.length := by
    rw [hR1, List.length_append, hslot]
    omega
  have hdrop : R1.drop 80 = R2 := by
    rw [hR1]
    exact List.drop_left' hslot
  have hw2 : word4 (i32 h.gtype ++ (i32 h.ftype ++ (i32 1 ++ (i32 h.ndim ++
      (words h.ngrid ++ (i32 data.length ++ (words h.cell ++ words data))))))) =
      some (h.gtype, i32 h.ftype ++ (i32 1 ++ (i32 h.ndim ++
        (words h.ngrid ++ (i32 data.length ++ (words h.cell ++ words data)))))) :=
    word4_i32 _ _ hg
  have hw3 : word4 (i32 0 ++ (i32 1 ++ (i32 3 ++
      (words h.ngrid ++ (i32 data.length ++ (words h.cell ++ words data)))))) =
      some (0, i32 1 ++ (i32 3 ++
        (words h.ngrid ++ (i32 data.length ++ (words h.cell ++ words data))))) :=
    word4_i32 _ _ (by norm_num)
  have hw4 : word4 (i32 1 ++ (i32 3 ++
      (words h.ngrid ++ (i32 data.length ++ (words h.cell ++ words data))))) =
      some (1, i32 3 ++
        (words h.ngrid ++ (i32 data.length ++ (words h.cell ++ words data)))) :=
    word4_i32 _ _ (by norm_num)
  have hw5 : word4 (i32 3 ++
      (words h.ngrid ++ (i32 data.length ++ (words h.cell ++ words data)))) =
      some (3,
        words h.ngrid ++ (i32 data.length ++ (words h.cell ++ words data))) :=
    word4_i32 _ _ (by norm_num)
  have hw6 : wordsN 3 (words h.ngrid ++ (i32 data.length ++ (words h.cell ++ words data))) =
      some (h.ngrid, i32 data.length ++ (words h.cell ++ words data)) :=
    wordsN_of_words 3 h.ngrid _ hng3 hnglt
  have hw7 : word4 (i32 data.length ++ (words h.cell ++ words data)) =
      some (data.length % 2 ^ 32, words h.cell ++ words data) :=
    word4_i32_mod _ _
  have hw8 : wordsN 6 (words h.cell ++ words data) = some (h.cell, words data) :=
    wordsN_of_words 6 h.cell _ hc6 hclt
  refine ⟨⟨h.version, titleOf (R1.take 80), h.gtype, h.ftype, 1, h.ndim, h.ngrid,
    data.length % 2 ^ 32, h.cell, 0, 0, 0, [], []⟩, ?_, rfl, rfl⟩
  rw [e0, read_grid]
  rw [hw1]
  simp only [hlen1, if_pos, hdrop, hw2, hraw, hndim]
  simp [hw3, hw4, hw5, hw6, hw7, hw8, chunkWords_words data hdata]

set_option maxRecDepth 8000 in
/-- Witness for C5 on the concrete raw header and a two-entry value
array whose second word exercises the full 32-bit range. -/
theorem c5_witness :
    wfHeader hdrRaw ∧ hdrRaw.ftype = 0 ∧ wordsLt [5, 4294967295] ∧
      (∃ h2, read_grid (write_grid hdrRaw [] [5, 4294967295])
          = some (h2, [], [5, 4294967295]) ∧
        h2.ngrid = hdrRaw.ngrid ∧ h2.cell = hdrRaw.cell) :=
  ⟨by decide, rfl, by decide,
    c5_raw_roundtrip hdrRaw [] [5, 4294967295] (by decide) rfl (by decide)⟩

/-- Claim C6: for every well-formed header and data array, the written
byte stream carries `values_per_record = 1` (bytes 104–107) and
`record_count = len(data)` as an `int32` (bytes 124–127), regardless of
the `nval` and `nasym` fields of the supplied header — neither appears
in the output. -/
theorem c6_write_forces_nval_nasym (h : GridHeader) (indices data : List Nat)
    (hwf : wfHeader h) :
    ((write_grid h indices data).drop 104).take 4 = i32 1 ∧
      ((write_grid h indices data).drop 124).take 4 = i32 data.length := by
  obtain ⟨hv4, hvlt, ht79, htb, hg, hf, hndim, hng3, hnglt, hc6, hclt,
    hnp, hnc, hns, hsl, hsrow, hsp3, hsplt⟩ := hwf
  constructor
  · have hsplit : write_grid h indices data =
        (words h.version ++ ((h.title ++ List.replicate (80 - h.title.length) 0) ++
          (i32 h.gtype ++ i32 h.ftype))) ++
          (i32 1 ++ (i32 h.ndim ++ (words h.ngrid ++ (i32 data.length ++ (words h.cell ++
            (if h.ftype = 1 then
              i32 h.npos ++ i32 h.ncen ++ i32 h.nsub ++ words (symopFlat h.symop) ++
                words h.subposp ++ zipRecords indices data
            else
              words data)))))) := by
      rw [write_grid]
      simp [List.append_assoc]
    have hlen : (words h.version ++ ((h.title ++ List.replicate (80 - h.title.length) 0) ++
        (i32 h.gtype ++ i32 h.ftype))).length = 104 := by
      simp [List.length_append, words_length, hv4, i32, List.length_replicate]
      omega
    rw [hsplit, List.drop_left' hlen]
    exact List.take_left' rfl
  · have hsplit : write_grid h indices data =
        (words h.version ++ ((h.title ++ List.replicate (80 - h.title.length) 0) ++
          (i32 h.gtype ++ (i32 h.ftype ++ (i32 1 ++ (i32 h.ndim ++ words h.ngrid)))))) ++
          (i32 data.length ++ (words h.cell ++
            (if h.ftype = 1 then
              i32 h.npos ++ i32 h.ncen ++ i32 h.nsub ++ words (symopFlat h.symop) ++
                words h.subposp ++ zipRecords indices data
            else
              words data))) := by
      rw [write_grid]
      simp [List.append_assoc]
    have hlen : (words h.version ++ ((h.title ++ List.replicate (80 - h.title.length) 0) ++
        (i32 h.gtype ++ (i32 h.ftype ++ (i32 1 ++ (i32 h.ndim ++ words h.ngrid)))))).length
        = 124 := by
      simp [List.length_append, words_length, hv4, hng3, i32, List.length_replicate]
      omega
    rw [hsplit, List.drop_left' hlen]
    exact List.take_left' rfl

set_option maxRecDepth 8000 in
/-- Witness for C6 on the concrete raw header, whose own `nval` is 2 and
`nasym` is 999: the written fields are 1 and 3 nevertheless. -/
theorem c6_witness :
    wfHeader hdrRaw ∧
      (((write_grid hdrRaw [] [5, 6, 7]).drop 104).take 4 = i32 1 ∧
        ((write_grid hdrRaw [] [5, 6, 7]).drop 124).take 4 = i32 ([5, 6, 7] : List Nat).length) :=
  ⟨by decide, c6_write_forces_nval_nasym hdrRaw [] [5, 6, 7] (by decide)⟩

theorem zipRecords_length (a b : List Nat) :
    (zipRecords a b).length = 8 * min a.length b.length := by
  induction a generalizing b with
  | nil => simp [zipRecords]
  | cons x t ih =>
    cases b with
    | nil => simp [zipRecords]
    | cons y u =>
      simp [zipRecords, List.length_append, i32, ih]
      omega

theorem symopFlat_length (rows : List (List Nat)) (hr : ∀ row ∈ rows, row.length = 12) :
    (symopFlat rows).length = 12 * rows.length := by
  induction rows with
  | nil => simp [symopFlat]
  | cons row rest ih =>
    have h1 : row.length = 12 := hr row (List.mem_cons_self row rest)
    have h2 : ∀ r ∈ rest, r.length = 12 := fun r hrr => hr r (List.mem_cons_of_mem row hrr)
    simp [symopFlat, List.length_append, h1, ih h2]
    omega

set_option maxRecDepth 8000 in
/-- Claim C7 counterexample: writing an indexed grid with one index but
two values does not fail — no error of any kind exists in `write_grid`
(`zip` silently truncates) — and produces a complete 184-byte file whose
record section holds exactly one index/value pair (the value 20 is
silently dropped, while the `record_count` field was set to 2). -/
theorem c7_counterexample :
    (write_grid hdrIdx [7] [10, 20]).length = 184 ∧
      (write_grid hdrIdx [7] [10, 20]).drop 176 = i32 7 ++ i32 10 := by
  decide

/-- Claim C7 (amended): writing an indexed grid with mismatched index
and value arrays does not fail; the written file contains exactly
`min(len(indices), len(values))` records — its total size is the
152-byte fixed header plus the 24 + 48·npos byte symmetry block plus 8
bytes per truncated record — while `record_count` is set to
`len(values)`. -/
theorem c7_amended (h : GridHeader) (indices data : List Nat)
    (hwf : wfHeader h) (hidx : h.ftype = 1) :
    (write_grid h indices data).length
      = 176 + 48 * h.npos + 8 * min indices.length data.length := by
  obtain ⟨hv4, hvlt, ht79, htb, hg, hf, hndim, hng3, hnglt, hc6, hclt,
    hnp, hnc, hns, hsl, hsrow, hsp3, hsplt⟩ := hwf
  rw [write_grid, if_pos hidx]
  simp [List.length_append, words_length, hv4, hng3, hc6, hsp3, i32,
    symopFlat_length h.symop (fun row hrow => (hsrow row hrow).1), hsl,
    zipRecords_length, List.length_replicate]
  omega

set_option maxRecDepth 8000 in
/-- Witness for the amended C7 at one index against two values. -/
theorem c7_witness :
    wfHeader hdrIdx ∧ hdrIdx.ftype = 1 ∧
      (write_grid hdrIdx [7] [10, 20]).length
        = 176 + 48 * hdrIdx.npos + 8 * min ([7] : List Nat).length ([10, 20] : List Nat).length :=
  ⟨by decide, rfl, c7_amended hdrIdx [7] [10, 20] (by decide) rfl⟩

end CalcOpp
